import Mathlib

/-!
Verification development for the Hermes email-relay service.

The definitions below are a shallow embedding of the security core of the
repository: the Fernet-based symmetric cipher wrapper (app/utils/crypto.py),
the persisted entities and their decrypt-on-read / encrypt-on-write
accessors (app/models.py), the identity resolver and the two authorization
gates (app/utils/auth.py), the approval workflow and admin user listing
(app/api/admin_api.py), the user-facing registration and key-rotation
handlers (app/api/user_api.py), the send-email handler (app/api/email_api.py),
and the master-key rotation procedure (scripts/rotate_keys.py).

Conventions of the embedding:
- Fernet is an authenticated cipher, so a ciphertext is modelled as the pair
  of the key it was produced under and the plaintext; decryption under any
  other key fails.  A raised Python exception is modelled as `Except.error`
  or as `none`, depending on how the caller consumes it.
- The process-wide active key (the FERNET_KEY environment variable read by
  crypto.py) and the configured static key are threaded explicitly as the
  `fernetKey` and `staticKey` fields of `Store`; accessors that use the
  global cipher in Python take the active key as an argument here.
- Python truthiness of an optional string (None and the empty string are
  falsy) is `truthyStr`; Python `str.replace` and `str.startswith`, which
  the header parsing uses, are `pyReplace` and `pyStartswith`.
-/

namespace Hermes

/-- Python `str.replace` on character lists: replaces every non-overlapping
occurrence of `pat` left to right.  Structural recursion on fuel so that the
kernel can evaluate it; fuel equal to the length of the scanned list always
suffices because each step consumes at least one character. -/
def replaceAux (pat repl : List Char) : Nat → List Char → List Char
  | _, [] => []
  | 0, l => l
  | fuel+1, c :: rest =>
    if pat ≠ [] ∧ pat.isPrefixOf (c :: rest) then
      repl ++ replaceAux pat repl fuel (rest.drop (pat.length - 1))
    else
      c :: replaceAux pat repl fuel rest

/-- Python `s.replace(pat, repl)`. -/
def pyReplace (s pat repl : String) : String :=
  ⟨replaceAux pat.data repl.data s.data.length s.data⟩

/-- Python `s.startswith(pat)`. -/
def pyStartswith (s pat : String) : Bool := pat.data.isPrefixOf s.data

/-- Python truthiness of an optional string: `None` and `""` are falsy. -/
def truthyStr : Option String → Bool
  | some s => s != ""
  | none => false

/-- Idealized authenticated (Fernet) ciphertext: the token remembers the key
it was encrypted under together with the plaintext.  This captures exactly
the contract crypto.py relies on: decryption under the producing key returns
the plaintext, decryption under any other key raises. -/
structure Ciphertext where
  encKey : String
  plain : String
deriving DecidableEq, Repr

/-- Embeds `encrypt_value` from app/utils/crypto.py, with the key argument
made explicit (in the source an omitted key means the process-wide cipher). -/
def encrypt_value (value : String) (key : String) : Ciphertext := ⟨key, value⟩

/-- Embeds `decrypt_value` from app/utils/crypto.py; `none` models the
`InvalidToken` exception raised on a wrong-key decryption. -/
def decrypt_value (token : Ciphertext) (key : String) : Option String :=
  if token.encKey = key then some token.plain else none

/-- The `User` row of app/models.py (the fields the security core reads). -/
structure User where
  id : String
  name : String
  email : String
  api_key_encrypted : Option Ciphertext
  api_key_plain_encrypted : Option Ciphertext
  is_admin : Bool
  api_key_approved : Bool
  hermes_default_usage : Nat
  is_blocked : Bool
deriving DecidableEq, Repr

/-- The `User.api_key` property getter: decrypts `api_key_encrypted` under
the active key, `none` when the column is empty; `Except.error` models the
exception a wrong-key decryption raises. -/
def User.api_key (u : User) (fernetKey : String) : Except Unit (Option String) :=
  match u.api_key_encrypted with
  | some c =>
    match decrypt_value c fernetKey with
    | some p => .ok (some p)
    | none => .error ()
  | none => .ok none

/-- The `User.api_key` property setter: encrypts a truthy value under the
active key, clears the column otherwise. -/
def User.set_api_key (u : User) (value : Option String) (fernetKey : String) : User :=
  if truthyStr value then
    { u with api_key_encrypted := some (encrypt_value (value.getD "") fernetKey) }
  else
    { u with api_key_encrypted := none }

/-- The `User._set_api_key` rotation helper: identical logic to the setter,
writing under an explicitly supplied key.  Since the embedding threads the
key explicitly everywhere, the two coincide. -/
def User._set_api_key (u : User) (value : Option String) (fernet_key : String) : User :=
  u.set_api_key value fernet_key

/-- The `User.api_key_plain` property getter. -/
def User.api_key_plain (u : User) (fernetKey : String) : Except Unit (Option String) :=
  match u.api_key_plain_encrypted with
  | some c =>
    match decrypt_value c fernetKey with
    | some p => .ok (some p)
    | none => .error ()
  | none => .ok none

/-- The `User.api_key_plain` property setter. -/
def User.set_api_key_plain (u : User) (value : Option String) (fernetKey : String) : User :=
  if truthyStr value then
    { u with api_key_plain_encrypted := some (encrypt_value (value.getD "") fernetKey) }
  else
    { u with api_key_plain_encrypted := none }

/-- The `User._set_api_key_plain` rotation helper. -/
def User._set_api_key_plain (u : User) (value : Option String) (fernet_key : String) : User :=
  u.set_api_key_plain value fernet_key

/-- The `EmailBot` row of app/models.py; the encrypted columns are
non-nullable. -/
structure EmailBot where
  id : String
  user_id : String
  username : Option String
  email_encrypted : Ciphertext
  password_encrypted : Ciphertext
  smtp_server : String
  smtp_port : Nat
deriving DecidableEq, Repr

/-- The `EmailBot.email` property getter. -/
def EmailBot.email (b : EmailBot) (fernetKey : String) : Except Unit String :=
  match decrypt_value b.email_encrypted fernetKey with
  | some p => .ok p
  | none => .error ()

/-- The `EmailBot._set_email` rotation helper (no truthiness guard in the
source, unlike the User setters). -/
def EmailBot._set_email (b : EmailBot) (value : String) (fernet_key : String) : EmailBot :=
  { b with email_encrypted := encrypt_value value fernet_key }

/-- The `EmailBot.password` property getter. -/
def EmailBot.password (b : EmailBot) (fernetKey : String) : Except Unit String :=
  match decrypt_value b.password_encrypted fernetKey with
  | some p => .ok p
  | none => .error ()

/-- The `EmailBot._set_password` rotation helper. -/
def EmailBot._set_password (b : EmailBot) (value : String) (fernet_key : String) : EmailBot :=
  { b with password_encrypted := encrypt_value value fernet_key }

/-- The persistent state the security core manipulates: the user and bot
tables plus the configuration the handlers read (active Fernet key, static
trusted-service key, default-bot usage limit). -/
structure Store where
  users : List User
  bots : List EmailBot
  fernetKey : String
  staticKey : String
  botLimit : Nat
deriving DecidableEq, Repr

/-- The two credential headers the identity resolver reads. -/
structure RequestHeaders where
  authorization : Option String
  xStaticKey : Option String
deriving DecidableEq, Repr

/-- The static-key test shared by `get_current_user` and `admin_only`:
the header is present, truthy, and equal to the configured API_STATIC_KEY. -/
def staticKeyOk (req : RequestHeaders) (st : Store) : Bool :=
  match req.xStaticKey with
  | some s => s != "" && s == st.staticKey
  | none => false

/-- One candidate check of the lookup loops in app/utils/auth.py:
`user.api_key == api_key` evaluated under try/except, so a decryption
failure (and an absent key, which compares `None == str`) both yield
`false` and the scan continues. -/
def userKeyMatches (fernetKey api_key : String) (u : User) : Bool :=
  match u.api_key fernetKey with
  | .ok (some p) => p == api_key
  | _ => false

/-- Embeds `get_current_user` from app/utils/auth.py: a matching static key
short-circuits to "trusted but no specific user"; otherwise the bearer token
is extracted and the approved users are scanned in order for the first whose
decrypted key equals it. -/
def get_current_user (req : RequestHeaders) (st : Store) : Option User :=
  if staticKeyOk req st then none
  else if pyStartswith (req.authorization.getD "") "Bearer " then
    if pyReplace (req.authorization.getD "") "Bearer " "" = "" then none
    else
      (st.users.filter fun u => u.api_key_approved).find?
        (userKeyMatches st.fernetKey (pyReplace (req.authorization.getD "") "Bearer " ""))
  else none

/-- Result of running a decorated handler: either a rejection produced by the
gate (status code and error message) or execution of the wrapped operation. -/
inductive GateResult (α : Type) where
  | rejected (status : Nat) (error : String)
  | executed (val : α)
deriving DecidableEq, Repr

/-- Embeds the `admin_only` decorator: a matching static key runs the handler
outright; otherwise the resolved identity must be an admin. -/
def admin_only {α : Type} (f : Unit → α) (req : RequestHeaders) (st : Store) : GateResult α :=
  if staticKeyOk req st then .executed (f ())
  else
    match get_current_user req st with
    | some u => if u.is_admin then .executed (f ()) else .rejected 403 "Admin access required"
    | none => .rejected 403 "Admin access required"

/-- Rejection message of `require_api_key` for a key matching an unapproved
user (the awaiting-approval branch). -/
def pendingApprovalMsg : String :=
  "Your API key is awaiting admin approval. You will receive an email with your API key once approved."

/-- Embeds the `require_api_key` decorator: extracts the bearer key (note the
source never checks the `Bearer ` prefix here, it only strips occurrences of
it), rejects 401 when the result is empty, then scans all users - approved or
not - for the first whose decrypted key matches; a pending match rejects 403,
no match rejects 403, decryption failures are swallowed by the scan. -/
def require_api_key {α : Type} (f : Unit → α) (req : RequestHeaders) (st : Store) : GateResult α :=
  if pyReplace (req.authorization.getD "") "Bearer " "" = "" then .rejected 401 "API key missing"
  else
    match st.users.find?
        (userKeyMatches st.fernetKey (pyReplace (req.authorization.getD "") "Bearer " "")) with
    | some u =>
      if u.api_key_approved then .executed (f ())
      else .rejected 403 pendingApprovalMsg
    | none => .rejected 403 "Invalid API key"

/-- The distinguishable responses of the approve-user handler. -/
inductive ApproveResponse where
  | notFound
  | alreadyApproved
  | internalError
  | noPendingKey
  | approved (api_key : String)
deriving DecidableEq, Repr

/-- Result of one approve-user call: the HTTP-level response, the committed
store, and the approval notifications sent (recipient together with the
plaintext key placed in the mail template context). -/
structure ApproveOutcome where
  response : ApproveResponse
  store : Store
  notifications : List (String × String)
deriving DecidableEq, Repr

/-- Embeds the body of `approve_user` from app/api/admin_api.py: missing user
is 404; an already-approved user returns the already-approved message with no
state change and no mail; an untruthy pending key is 400; evaluating the
pending-key property on an undecryptable ciphertext raises out of the handler
(`internalError`); otherwise the plaintext moves from the pending field into
the permanent encrypted field, the pending field is cleared, the approval flag
is set, the row is committed, and one approval email carrying the plaintext
key is sent. -/
def approve_user (user_id : String) (st : Store) : ApproveOutcome :=
  match st.users.find? (fun u => u.id == user_id) with
  | none => ⟨.notFound, st, []⟩
  | some user =>
    if user.api_key_approved then ⟨.alreadyApproved, st, []⟩
    else
      match user.api_key_plain st.fernetKey with
      | .error _ => ⟨.internalError, st, []⟩
      | .ok pending =>
        if truthyStr pending then
          let p := pending.getD ""
          let user2 :=
            { (user.set_api_key (some p) st.fernetKey).set_api_key_plain none st.fernetKey with
              api_key_approved := true }
          let st2 := { st with users := st.users.map fun v => if v.id == user.id then user2 else v }
          ⟨.approved p, st2, [(user.email, p)]⟩
        else ⟨.noPendingKey, st, []⟩

/-- Result of the register handler: HTTP status and committed store. -/
structure RegisterOutcome where
  status : Nat
  store : Store
deriving DecidableEq, Repr

/-- Embeds the body of `register` from app/api/user_api.py.  The freshly
generated uuid4 plain key and the new row id are passed in as the source's
external randomness.  A missing name or email or a duplicate email is a 400
that leaves the store unchanged; otherwise a pending user is created whose
generated key is held encrypted in the temporary field. -/
def register (name email : Option String) (plain_key new_id : String) (st : Store) :
    RegisterOutcome :=
  if truthyStr name && truthyStr email then
    if (st.users.find? fun u => u.email == email.getD "").isSome then ⟨400, st⟩
    else
      let user0 : User :=
        { id := new_id, name := name.getD "", email := email.getD "",
          api_key_encrypted := none, api_key_plain_encrypted := none,
          is_admin := false, api_key_approved := false,
          hermes_default_usage := 0, is_blocked := false }
      ⟨201, { st with users := st.users ++ [user0.set_api_key_plain (some plain_key) st.fernetKey] }⟩
  else ⟨400, st⟩

/-- Result of the user-initiated key-rotation handler. -/
structure RotateOwnOutcome where
  status : Nat
  new_api_key : Option String
  store : Store
deriving DecidableEq, Repr

/-- Embeds the body of `rotate_api_key` from app/api/user_api.py: the acting
user is resolved from the request, a fresh uuid4 key (passed in as the
external randomness) is encrypted into the permanent field, and the plaintext
of the new key is returned to the caller. -/
def rotate_api_key (req : RequestHeaders) (new_key : String) (st : Store) : RotateOwnOutcome :=
  match get_current_user req st with
  | none => ⟨400, none, st⟩
  | some user =>
    let user2 := user.set_api_key (some new_key) st.fernetKey
    ⟨200, some new_key,
      { st with users := st.users.map fun v => if v.id == user.id then user2 else v }⟩

/-- Embeds the state change of `block_user` from app/api/admin_api.py:
sets the block flag of the addressed user and touches nothing else. -/
def block_user (user_id : String) (block : Bool) (st : Store) : Store :=
  { st with users := st.users.map fun v =>
      if v.id == user_id then { v with is_blocked := block } else v }

/-- One row of the admin users listing, with the fields the handler builds
from the decrypting properties. -/
structure AdminUserView where
  id : String
  name : String
  email : String
  api_key_approved : Bool
  is_admin : Bool
  api_key : Option String
  api_key_plain : Option String
deriving DecidableEq, Repr

/-- The list comprehension of `list_users_admin`: each row evaluates the
`api_key` and `api_key_plain` properties (which decrypt); a raised decryption
error escapes the handler. -/
def buildUserViews (fernetKey : String) : List User → Except Unit (List AdminUserView)
  | [] => .ok []
  | u :: rest =>
    match u.api_key fernetKey, u.api_key_plain fernetKey with
    | .ok k, .ok kp =>
      match buildUserViews fernetKey rest with
      | .ok rest' => .ok (⟨u.id, u.name, u.email, u.api_key_approved, u.is_admin, k, kp⟩ :: rest')
      | .error e => .error e
    | _, _ => .error ()

/-- Embeds the all-users branch of `list_users_admin` from
app/api/admin_api.py (the single-user branch builds the same dict for one
row). -/
def list_users_admin (st : Store) : Except Unit (List AdminUserView) :=
  buildUserViews st.fernetKey st.users

/-- Embeds the body of `get_profile` from app/api/user_api.py as far as the
claims need it: re-resolving the acting user fails with 400 "User not found",
success is a 200 profile payload. -/
def get_profile_route (req : RequestHeaders) (st : Store) : Nat × Option String :=
  match get_current_user req st with
  | none => (400, some "User not found")
  | some _ => (200, none)

/-- The `/api/v1/me` endpoint: `get_profile` wrapped in `require_api_key`. -/
def me_endpoint (req : RequestHeaders) (st : Store) : GateResult (Nat × Option String) :=
  require_api_key (fun _ => get_profile_route req st) req st

/-- Result of the send-email handler: HTTP status, error message, whether a
hand-off to the SMTP transport was attempted, and the committed store. -/
structure SendOutcome where
  status : Nat
  error : Option String
  dispatched : Bool
  store : Store
deriving DecidableEq, Repr

/-- Rejection message of the default-bot usage cap in `send_email`. -/
def limitExceededMsg : String :=
  "Default Hermes bot usage limit exceeded. Please create your own EmailBot."

/-- Embeds the body of `send_email` from app/api/email_api.py: the acting
user is re-resolved (400 when that fails); a truthy bot_id selects the
user-owned bot (400 when absent or not owned, and reading its decrypting
properties can raise); with no bot_id the default Hermes bot is used, which
rejects 403 before any increment or dispatch when the usage counter has
reached the configured limit, and otherwise increments and commits the
counter before attempting the dispatch.  The outcome of the SMTP transport
is the external input `sendOk`; a transport failure surfaces as 500 after
the counter was already committed. -/
def send_email_route (botId : Option String) (sendOk : Bool) (req : RequestHeaders)
    (st : Store) : SendOutcome :=
  match get_current_user req st with
  | none => ⟨400, some "User not found", false, st⟩
  | some user =>
    if truthyStr botId then
      match st.bots.find? (fun b => b.id == botId.getD "" && b.user_id == user.id) with
      | none => ⟨400, some "Invalid bot ID or bot does not belong to user", false, st⟩
      | some bot =>
        match bot.email st.fernetKey, bot.password st.fernetKey with
        | .ok _, .ok _ =>
          if sendOk then ⟨200, none, true, st⟩
          else ⟨500, some "Email send failed", true, st⟩
        | _, _ => ⟨500, some "decryption failure", false, st⟩
    else
      if st.botLimit ≤ user.hermes_default_usage then
        ⟨403, some limitExceededMsg, false, st⟩
      else
        let user2 := { user with hermes_default_usage := user.hermes_default_usage + 1 }
        let st2 := { st with users := st.users.map fun v => if v.id == user.id then user2 else v }
        if sendOk then ⟨200, none, true, st2⟩
        else ⟨500, some "Email send failed", true, st2⟩

/-- The `/api/v1/send-email` endpoint: the handler wrapped in
`require_api_key`. -/
def send_email_endpoint (botId : Option String) (sendOk : Bool) (req : RequestHeaders)
    (st : Store) : GateResult SendOutcome :=
  require_api_key (fun _ => send_email_route botId sendOk req st) req st

/-- One user row of the master-key rotation loop in scripts/rotate_keys.py:
each non-empty encrypted field is decrypted under the old key and rewritten
under the new key via the explicit-key setters; a decryption failure raises
and aborts the run. -/
def rotate_user_key_field (oldKey newKey : String) (u : User) : Except Unit User :=
  match u.api_key_encrypted with
  | some c =>
    match decrypt_value c oldKey with
    | some plain => .ok (u._set_api_key (some plain) newKey)
    | none => .error ()
  | none => .ok u

/-- The pending-key field of one user row of the rotation loop. -/
def rotate_user_plain_field (oldKey newKey : String) (u : User) : Except Unit User :=
  match u.api_key_plain_encrypted with
  | some c =>
    match decrypt_value c oldKey with
    | some plain => .ok (u._set_api_key_plain (some plain) newKey)
    | none => .error ()
  | none => .ok u

/-- Both fields of one user row of the rotation loop. -/
def rotate_user_row (oldKey newKey : String) (u : User) : Except Unit User :=
  match rotate_user_key_field oldKey newKey u with
  | .ok u1 => rotate_user_plain_field oldKey newKey u1
  | .error e => .error e

/-- One bot row of the master-key rotation loop. -/
def rotate_bot_row (oldKey newKey : String) (b : EmailBot) : Except Unit EmailBot :=
  match decrypt_value b.email_encrypted oldKey with
  | some plainE =>
    let b1 := b._set_email plainE newKey
    match decrypt_value b1.password_encrypted oldKey with
    | some plainP => .ok (b1._set_password plainP newKey)
    | none => .error ()
  | none => .error ()

/-- The user loop of `rotate_fernet_key`. -/
def rotateUsersRows (oldKey newKey : String) : List User → Except Unit (List User)
  | [] => .ok []
  | u :: rest =>
    match rotate_user_row oldKey newKey u with
    | .ok u' =>
      match rotateUsersRows oldKey newKey rest with
      | .ok rest' => .ok (u' :: rest')
      | .error e => .error e
    | .error e => .error e

/-- The bot loop of `rotate_fernet_key`. -/
def rotateBotsRows (oldKey newKey : String) : List EmailBot → Except Unit (List EmailBot)
  | [] => .ok []
  | b :: rest =>
    match rotate_bot_row oldKey newKey b with
    | .ok b' =>
      match rotateBotsRows oldKey newKey rest with
      | .ok rest' => .ok (b' :: rest')
      | .error e => .error e
    | .error e => .error e

/-- Embeds `rotate_fernet_key` from scripts/rotate_keys.py: with no existing
key the run aborts; otherwise every user and bot row is rewritten from the
old key to the freshly generated `newKey`, the rewritten rows are committed
as one unit, and only then is the active-key configuration updated to
`newKey`.  `Except.error` models the run aborting on a raised decryption
error before the commit and before the configuration update. -/
def rotate_fernet_key (st : Store) (newKey : String) : Except Unit Store :=
  if st.fernetKey = "" then .error ()
  else
    match rotateUsersRows st.fernetKey newKey st.users with
    | .ok users' =>
      match rotateBotsRows st.fernetKey newKey st.bots with
      | .ok bots' => .ok { st with users := users', bots := bots', fernetKey := newKey }
      | .error e => .error e
    | .error e => .error e

/-- The persistent effect of one run of the rotation script: an aborted run
leaves the committed store and the key configuration untouched. -/
def run_rotation (st : Store) (newKey : String) : Store :=
  match rotate_fernet_key st newKey with
  | .ok st' => st'
  | .error _ => st

/-- One state transition of the system: self-registration, admin approval,
user-initiated key rotation, one run of the master-key rotation script, or
an admin block/unblock.  The uuid4 values the handlers generate appear as
parameters; `rotateOwn` records that a generated uuid4 hex key is never
empty. -/
inductive Step : Store → Store → Prop where
  | reg (name email : Option String) (plain_key new_id : String) (st : Store) :
      Step st (register name email plain_key new_id st).store
  | approve (user_id : String) (st : Store) :
      Step st (approve_user user_id st).store
  | rotateOwn (req : RequestHeaders) (new_key : String) (st : Store) (hk : new_key ≠ "") :
      Step st (rotate_api_key req new_key st).store
  | rotateMaster (newKey : String) (st : Store) :
      Step st (run_rotation st newKey)
  | setBlock (user_id : String) (b : Bool) (st : Store) :
      Step st (block_user user_id b st)

/-- A store reachable from an empty user table by any sequence of the
system's operations. -/
inductive Reachable : Store → Prop where
  | init (fernetKey staticKey : String) (botLimit : Nat) :
      Reachable ⟨[], [], fernetKey, staticKey, botLimit⟩
  | step {s t : Store} : Reachable s → Step s t → Reachable t

/-- The inductive invariant on a user row: an approved user holds a permanent
encrypted key written under the active key with a nonempty plaintext, and an
empty pending field. -/
def UserInv (fernetKey : String) (u : User) : Prop :=
  u.api_key_approved = true →
    (∃ c, u.api_key_encrypted = some c ∧ c.encKey = fernetKey ∧ c.plain ≠ "") ∧
    u.api_key_plain_encrypted = none

/-- The invariant over the whole store. -/
def StoreInv (st : Store) : Prop := ∀ u ∈ st.users, UserInv st.fernetKey u

theorem truthyStr_some (s : String) : truthyStr (some s) = (s != "") := rfl

theorem truthyStr_none : truthyStr none = false := rfl

theorem decrypt_encrypt (v k : String) : decrypt_value (encrypt_value v k) k = some v := by
  simp [decrypt_value, encrypt_value]

theorem decrypt_encrypt_ne (v k k' : String) (h : k' ≠ k) :
    decrypt_value (encrypt_value v k) k' = none := by
  simp [decrypt_value, encrypt_value]
  intro he
  exact absurd he.symm h

theorem set_api_key_eq (u : User) (v : Option String) (k : String) :
    u.set_api_key v k =
      { u with api_key_encrypted :=
          if truthyStr v then some (encrypt_value (v.getD "") k) else none } := by
  unfold User.set_api_key
  split <;> simp_all

theorem set_api_key_plain_eq (u : User) (v : Option String) (k : String) :
    u.set_api_key_plain v k =
      { u with api_key_plain_encrypted :=
          if truthyStr v then some (encrypt_value (v.getD "") k) else none } := by
  unfold User.set_api_key_plain
  split <;> simp_all

theorem find?_eq_some_of_unique {α : Type} (p : α → Bool) (l : List α) (u : α)
    (hmem : u ∈ l) (hp : p u = true) (huniq : ∀ v ∈ l, p v = true → v = u) :
    l.find? p = some u := by
  induction l with
  | nil => cases hmem
  | cons a l ih =>
    by_cases ha : p a = true
    · have hau : a = u := huniq a (List.mem_cons_self a l) ha
      subst hau
      simp [List.find?, ha]
    · have ha' : p a = false := by simpa using ha
      rw [List.find?_cons, ha']
      have hmem' : u ∈ l := by
        rcases List.mem_cons.mp hmem with h | h
        · exact absurd (h ▸ hp) ha
        · exact h
      exact ih hmem' (fun v hv hpv => huniq v (List.mem_cons_of_mem a hv) hpv)

theorem get_current_user_mem (req : RequestHeaders) (st : Store) (u : User)
    (h : get_current_user req st = some u) : u ∈ st.users ∧ u.api_key_approved = true := by
  unfold get_current_user at h
  split at h
  · exact absurd h (by simp)
  · split at h
    · split at h
      · exact absurd h (by simp)
      · have hmem := List.mem_of_find?_eq_some h
        have hf := List.mem_filter.mp hmem
        exact ⟨hf.1, hf.2⟩
    · exact absurd h (by simp)

theorem userInv_of_not_approved {fk : String} {u : User} (h : u.api_key_approved = false) :
    UserInv fk u := by
  intro happ
  rw [h] at happ
  cases happ

theorem register_preserves (name email : Option String) (pk nid : String) (st : Store)
    (h : StoreInv st) : StoreInv (register name email pk nid st).store := by
  unfold register
  split
  · split
    · exact h
    · intro u hu
      rcases List.mem_append.mp hu with hl | hr
      · exact h u hl
      · have hu' := List.mem_singleton.mp hr
        subst hu'
        apply userInv_of_not_approved
        rw [set_api_key_plain_eq]
  · exact h

theorem approve_preserves (uid : String) (st : Store) (h : StoreInv st) :
    StoreInv (approve_user uid st).store := by
  unfold approve_user
  cases hf : st.users.find? (fun u => u.id == uid) with
  | none => exact h
  | some user =>
    simp only
    by_cases ha : user.api_key_approved = true
    · simp only [ha, if_true]
      exact h
    · have ha' : user.api_key_approved = false := by simpa using ha
      simp only [ha', if_false, Bool.false_eq_true]
      cases hp : user.api_key_plain st.fernetKey with
      | error e => exact h
      | ok pending =>
        simp only
        cases pending with
        | none => simp only [truthyStr_none, if_false, Bool.false_eq_true]; exact h
        | some s =>
          by_cases hs : s = ""
          · subst hs
            simp only [truthyStr_some, bne_self_eq_false, if_false, Bool.false_eq_true]
            exact h
          · have hts : truthyStr (some s) = true := by simp [truthyStr_some, hs]
            simp only [hts, if_true]
            intro v hv
            rw [List.mem_map] at hv
            obtain ⟨w, hw, rfl⟩ := hv
            by_cases hid : (w.id == user.id) = true
            · rw [if_pos hid]
              intro _
              refine ⟨⟨⟨st.fernetKey, s⟩, ?_, rfl, hs⟩, ?_⟩
              · simp [set_api_key_eq, set_api_key_plain_eq, hts, encrypt_value]
              · simp [set_api_key_eq, set_api_key_plain_eq, truthyStr_none]
            · rw [if_neg (by simpa using hid)]
              exact h w hw

theorem rotate_own_preserves (req : RequestHeaders) (nk : String) (st : Store)
    (hk : nk ≠ "") (h : StoreInv st) : StoreInv (rotate_api_key req nk st).store := by
  unfold rotate_api_key
  cases hg : get_current_user req st with
  | none => exact h
  | some user =>
    obtain ⟨humem, happr⟩ := get_current_user_mem req st user hg
    simp only
    intro v hv
    rw [List.mem_map] at hv
    obtain ⟨w, hw, rfl⟩ := hv
    by_cases hid : (w.id == user.id) = true
    · rw [if_pos hid]
      intro happ2
      have htk : truthyStr (some nk) = true := by simp [truthyStr_some, hk]
      refine ⟨⟨⟨st.fernetKey, nk⟩, ?_, rfl, hk⟩, ?_⟩
      · simp [set_api_key_eq, htk, encrypt_value]
      · have hplain := (h user humem happr).2
        simp [set_api_key_eq, hplain]
    · rw [if_neg (by simpa using hid)]
      exact h w hw

theorem block_preserves (uid : String) (b : Bool) (st : Store) (h : StoreInv st) :
    StoreInv (block_user uid b st) := by
  unfold block_user
  intro v hv
  rw [List.mem_map] at hv
  obtain ⟨w, hw, rfl⟩ := hv
  by_cases hid : (w.id == uid) = true
  · rw [if_pos hid]
    intro happ
    exact h w hw happ
  · rw [if_neg (by simpa using hid)]
    exact h w hw

theorem rotate_user_key_field_approved (ko nk : String) (u u' : User)
    (h : rotate_user_key_field ko nk u = .ok u') : u'.api_key_approved = u.api_key_approved := by
  unfold rotate_user_key_field at h
  cases hc : u.api_key_encrypted with
  | none => simp only [hc] at h; cases h; rfl
  | some c =>
    simp only [hc] at h
    cases hd : decrypt_value c ko with
    | none => simp only [hd] at h; cases h
    | some plain =>
      simp only [hd] at h
      cases h
      simp [User._set_api_key, set_api_key_eq]

theorem rotate_user_plain_field_approved (ko nk : String) (u u' : User)
    (h : rotate_user_plain_field ko nk u = .ok u') : u'.api_key_approved = u.api_key_approved := by
  unfold rotate_user_plain_field at h
  cases hc : u.api_key_plain_encrypted with
  | none => simp only [hc] at h; cases h; rfl
  | some c =>
    simp only [hc] at h
    cases hd : decrypt_value c ko with
    | none => simp only [hd] at h; cases h
    | some plain =>
      simp only [hd] at h
      cases h
      simp [User._set_api_key_plain, set_api_key_plain_eq]

theorem rotate_user_row_approved (ko nk : String) (u u' : User)
    (h : rotate_user_row ko nk u = .ok u') : u'.api_key_approved = u.api_key_approved := by
  unfold rotate_user_row at h
  cases h1 : rotate_user_key_field ko nk u with
  | error e => simp only [h1] at h; cases h
  | ok u1 =>
    simp only [h1] at h
    rw [rotate_user_plain_field_approved ko nk u1 u' h,
      rotate_user_key_field_approved ko nk u u1 h1]

theorem rotate_user_row_inv (ko nk : String) (u u' : User)
    (hrow : rotate_user_row ko nk u = .ok u') (h : UserInv ko u) : UserInv nk u' := by
  by_cases happ : u.api_key_approved = true
  · obtain ⟨⟨c, hc, hck, hcp⟩, hplain⟩ := h happ
    unfold rotate_user_row rotate_user_key_field at hrow
    have hd : decrypt_value c ko = some c.plain := by simp [decrypt_value, hck]
    simp only [hc, hd] at hrow
    have htc : truthyStr (some c.plain) = true := by simp [truthyStr_some, hcp]
    have hu1 : u._set_api_key (some c.plain) nk =
        { u with api_key_encrypted := some ⟨nk, c.plain⟩ } := by
      simp [User._set_api_key, set_api_key_eq, htc, encrypt_value]
    rw [hu1] at hrow
    unfold rotate_user_plain_field at hrow
    simp only [hplain] at hrow
    cases hrow
    intro _
    exact ⟨⟨⟨nk, c.plain⟩, rfl, rfl, hcp⟩, rfl⟩
  · have happ' : u.api_key_approved = false := by simpa using happ
    exact userInv_of_not_approved (by rw [rotate_user_row_approved ko nk u u' hrow]; exact happ')

theorem rotateUsersRows_inv (ko nk : String) (l : List User) (l' : List User)
    (h : rotateUsersRows ko nk l = .ok l') (hinv : ∀ u ∈ l, UserInv ko u) :
    ∀ u' ∈ l', UserInv nk u' := by
  induction l generalizing l' with
  | nil =>
    unfold rotateUsersRows at h
    cases h
    intro u' hu'
    cases hu'
  | cons a t ih =>
    unfold rotateUsersRows at h
    cases hr : rotate_user_row ko nk a with
    | error e => simp only [hr] at h; cases h
    | ok a' =>
      simp only [hr] at h
      cases hrest : rotateUsersRows ko nk t with
      | error e => simp only [hrest] at h; cases h
      | ok t' =>
        simp only [hrest] at h
        cases h
        intro u' hu'
        rcases List.mem_cons.mp hu' with rfl | hmem
        · exact rotate_user_row_inv ko nk a u' hr (hinv a (List.mem_cons_self a t))
        · exact ih t' hrest (fun u hu => hinv u (List.mem_cons_of_mem a hu)) u' hmem

theorem rotate_fernet_key_ok_inv (st : Store) (nk : String) (st' : Store)
    (h : rotate_fernet_key st nk = .ok st') :
    rotateUsersRows st.fernetKey nk st.users = .ok st'.users ∧ st'.fernetKey = nk := by
  unfold rotate_fernet_key at h
  split at h
  · cases h
  · cases hu : rotateUsersRows st.fernetKey nk st.users with
    | error e => simp only [hu] at h; cases h
    | ok users' =>
      simp only [hu] at h
      cases hb : rotateBotsRows st.fernetKey nk st.bots with
      | error e => simp only [hb] at h; cases h
      | ok bots' =>
        simp only [hb] at h
        cases h
        exact ⟨rfl, rfl⟩

theorem rotate_master_preserves (nk : String) (st : Store) (h : StoreInv st) :
    StoreInv (run_rotation st nk) := by
  unfold run_rotation
  cases hr : rotate_fernet_key st nk with
  | error e => exact h
  | ok st' =>
    obtain ⟨hu, hk⟩ := rotate_fernet_key_ok_inv st nk st' hr
    intro v hv
    rw [hk]
    exact rotateUsersRows_inv st.fernetKey nk st.users st'.users hu h v hv

theorem step_preserves {s t : Store} (hs : Step s t) (h : StoreInv s) : StoreInv t := by
  cases hs with
  | reg name email pk nid => exact register_preserves name email pk nid s h
  | approve uid => exact approve_preserves uid s h
  | rotateOwn req nk hk =>
    exact rotate_own_preserves req nk s (by assumption) h
  | rotateMaster nk => exact rotate_master_preserves nk s h
  | setBlock uid b => exact block_preserves uid b s h

theorem reachable_inv {s : Store} (h : Reachable s) : StoreInv s := by
  induction h with
  | init fk sk lim => intro u hu; cases hu
  | step _ hstep ih => exact step_preserves hstep ih

/-- A user row on which the rotation loop raises: some present ciphertext of
the row does not decrypt under the key the loop reads. -/
def userRowFails (fk : String) (u : User) : Prop :=
  (∃ c, u.api_key_encrypted = some c ∧ decrypt_value c fk = none) ∨
  (∃ c, u.api_key_plain_encrypted = some c ∧ decrypt_value c fk = none)

/-- A bot row on which the rotation loop raises. -/
def botRowFails (fk : String) (b : EmailBot) : Prop :=
  decrypt_value b.email_encrypted fk = none ∨ decrypt_value b.password_encrypted fk = none

theorem rotate_user_row_fails (ko nk : String) (u : User) (h : userRowFails ko u) :
    rotate_user_row ko nk u = .error () := by
  rcases h with ⟨c, hc, hd⟩ | ⟨c, hc, hd⟩
  · simp [rotate_user_row, rotate_user_key_field, hc, hd]
  · cases hke : u.api_key_encrypted with
    | none =>
      simp [rotate_user_row, rotate_user_key_field, rotate_user_plain_field, hke, hc, hd]
    | some c0 =>
      cases hd0 : decrypt_value c0 ko with
      | none => simp [rotate_user_row, rotate_user_key_field, hke, hd0]
      | some plain =>
        simp [rotate_user_row, rotate_user_key_field, rotate_user_plain_field, hke, hd0,
          User._set_api_key, set_api_key_eq, hc, hd]

theorem rotate_bot_row_fails (ko nk : String) (b : EmailBot) (h : botRowFails ko b) :
    rotate_bot_row ko nk b = .error () := by
  rcases h with hd | hd
  · simp [rotate_bot_row, hd]
  · cases hde : decrypt_value b.email_encrypted ko with
    | none => simp [rotate_bot_row, hde]
    | some p => simp [rotate_bot_row, hde, EmailBot._set_email, hd]

theorem rotateUsersRows_fails (ko nk : String) (l : List User)
    (h : ∃ u ∈ l, userRowFails ko u) : rotateUsersRows ko nk l = .error () := by
  induction l with
  | nil =>
    obtain ⟨u, hu, _⟩ := h
    cases hu
  | cons a t ih =>
    obtain ⟨u, hu, hf⟩ := h
    rcases List.mem_cons.mp hu with rfl | hmem
    · simp [rotateUsersRows, rotate_user_row_fails ko nk u hf]
    · unfold rotateUsersRows
      cases hr : rotate_user_row ko nk a with
      | error e => cases e; rfl
      | ok a' => simp [ih ⟨u, hmem, hf⟩]

theorem rotateBotsRows_fails (ko nk : String) (l : List EmailBot)
    (h : ∃ b ∈ l, botRowFails ko b) : rotateBotsRows ko nk l = .error () := by
  induction l with
  | nil =>
    obtain ⟨b, hb, _⟩ := h
    cases hb
  | cons a t ih =>
    obtain ⟨b, hb, hf⟩ := h
    rcases List.mem_cons.mp hb with rfl | hmem
    · simp [rotateBotsRows, rotate_bot_row_fails ko nk b hf]
    · unfold rotateBotsRows
      cases hr : rotate_bot_row ko nk a with
      | error e => cases e; rfl
      | ok a' => simp [ih ⟨b, hmem, hf⟩]

theorem decrypt_value_some (c : Ciphertext) (k p : String) (h : decrypt_value c k = some p) :
    c.encKey = k ∧ c.plain = p := by
  unfold decrypt_value at h
  split at h
  · refine ⟨by assumption, ?_⟩
    cases h
    rfl
  · cases h

/-- A user row whose present ciphertexts all decrypt under `fk`, to nonempty
plaintexts (the user setters refuse to store an empty plaintext, so this is
what the system itself ever writes). -/
def userRowReadable (fk : String) (u : User) : Prop :=
  (∀ c, u.api_key_encrypted = some c → ∃ p, decrypt_value c fk = some p ∧ p ≠ "") ∧
  (∀ c, u.api_key_plain_encrypted = some c → ∃ p, decrypt_value c fk = some p ∧ p ≠ "")

/-- A bot row whose ciphertexts decrypt under `fk`. -/
def botRowReadable (fk : String) (b : EmailBot) : Prop :=
  (∃ p, decrypt_value b.email_encrypted fk = some p) ∧
  (∃ p, decrypt_value b.password_encrypted fk = some p)

/-- Relation between a stored field before and after a successful rotation
from `ko` to `kn`: an empty field stays empty; a present ciphertext is
replaced by one that decrypts under `kn` to exactly the old plaintext and no
longer decrypts under `ko`. -/
def rotatedField (ko kn : String) : Option Ciphertext → Option Ciphertext → Prop
  | none, o' => o' = none
  | some c, o' => ∃ c', o' = some c' ∧
      decrypt_value c' kn = decrypt_value c ko ∧ decrypt_value c' ko = none

/-- Row-wise specification of a successful rotation of one user. -/
def rotatedUser (ko kn : String) (u u' : User) : Prop :=
  u'.id = u.id ∧ u'.api_key_approved = u.api_key_approved ∧
  rotatedField ko kn u.api_key_encrypted u'.api_key_encrypted ∧
  rotatedField ko kn u.api_key_plain_encrypted u'.api_key_plain_encrypted

/-- Row-wise specification of a successful rotation of one bot. -/
def rotatedBot (ko kn : String) (b b' : EmailBot) : Prop :=
  b'.id = b.id ∧
  decrypt_value b'.email_encrypted kn = decrypt_value b.email_encrypted ko ∧
  decrypt_value b'.email_encrypted ko = none ∧
  decrypt_value b'.password_encrypted kn = decrypt_value b.password_encrypted ko ∧
  decrypt_value b'.password_encrypted ko = none

theorem rotate_user_key_field_ok (ko kn : String) (u : User) (hkn : kn ≠ ko)
    (h : ∀ c, u.api_key_encrypted = some c → ∃ p, decrypt_value c ko = some p ∧ p ≠ "") :
    ∃ u1, rotate_user_key_field ko kn u = .ok u1 ∧
      rotatedField ko kn u.api_key_encrypted u1.api_key_encrypted ∧
      u1.api_key_plain_encrypted = u.api_key_plain_encrypted ∧
      u1.id = u.id ∧ u1.api_key_approved = u.api_key_approved := by
  cases hke : u.api_key_encrypted with
  | none =>
    refine ⟨u, ?_, ?_, rfl, rfl, rfl⟩
    · simp [rotate_user_key_field, hke]
    · simp [rotatedField, hke]
  | some c =>
    obtain ⟨p, hdp, hpne⟩ := h c hke
    obtain ⟨hck, hcp⟩ := decrypt_value_some c ko p hdp
    refine ⟨u._set_api_key (some p) kn, ?_, ?_, ?_, ?_, ?_⟩
    · simp [rotate_user_key_field, hke, hdp]
    · have hset : (u._set_api_key (some p) kn).api_key_encrypted = some ⟨kn, p⟩ := by
        simp [User._set_api_key, set_api_key_eq, truthyStr_some, hpne, encrypt_value]
      simp only [rotatedField]
      refine ⟨⟨kn, p⟩, hset, ?_, ?_⟩
      · rw [hdp]
        simp [decrypt_value]
      · simp [decrypt_value, hkn]
    · simp [User._set_api_key, set_api_key_eq]
    · simp [User._set_api_key, set_api_key_eq]
    · simp [User._set_api_key, set_api_key_eq]

theorem rotate_user_plain_field_ok (ko kn : String) (u : User) (hkn : kn ≠ ko)
    (h : ∀ c, u.api_key_plain_encrypted = some c → ∃ p, decrypt_value c ko = some p ∧ p ≠ "") :
    ∃ u1, rotate_user_plain_field ko kn u = .ok u1 ∧
      rotatedField ko kn u.api_key_plain_encrypted u1.api_key_plain_encrypted ∧
      u1.api_key_encrypted = u.api_key_encrypted ∧
      u1.id = u.id ∧ u1.api_key_approved = u.api_key_approved := by
  cases hke : u.api_key_plain_encrypted with
  | none =>
    refine ⟨u, ?_, ?_, rfl, rfl, rfl⟩
    · simp [rotate_user_plain_field, hke]
    · simp [rotatedField, hke]
  | some c =>
    obtain ⟨p, hdp, hpne⟩ := h c hke
    obtain ⟨hck, hcp⟩ := decrypt_value_some c ko p hdp
    refine ⟨u._set_api_key_plain (some p) kn, ?_, ?_, ?_, ?_, ?_⟩
    · simp [rotate_user_plain_field, hke, hdp]
    · have hset : (u._set_api_key_plain (some p) kn).api_key_plain_encrypted = some ⟨kn, p⟩ := by
        simp [User._set_api_key_plain, set_api_key_plain_eq, truthyStr_some, hpne, encrypt_value]
      simp only [rotatedField]
      refine ⟨⟨kn, p⟩, hset, ?_, ?_⟩
      · rw [hdp]
        simp [decrypt_value]
      · simp [decrypt_value, hkn]
    · simp [User._set_api_key_plain, set_api_key_plain_eq]
    · simp [User._set_api_key_plain, set_api_key_plain_eq]
    · simp [User._set_api_key_plain, set_api_key_plain_eq]

theorem rotate_user_row_ok (ko kn : String) (u : User) (hkn : kn ≠ ko)
    (hr : userRowReadable ko u) :
    ∃ u', rotate_user_row ko kn u = .ok u' ∧ rotatedUser ko kn u u' := by
  obtain ⟨h1, h2⟩ := hr
  obtain ⟨u1, hk1, hrel1, hpl1, hid1, hap1⟩ := rotate_user_key_field_ok ko kn u hkn h1
  have h2' : ∀ c, u1.api_key_plain_encrypted = some c →
      ∃ p, decrypt_value c ko = some p ∧ p ≠ "" := by
    intro c hc
    exact h2 c (hpl1 ▸ hc)
  obtain ⟨u2, hk2, hrel2, henc2, hid2, hap2⟩ := rotate_user_plain_field_ok ko kn u1 hkn h2'
  refine ⟨u2, ?_, ?_, ?_, ?_, ?_⟩
  · simp [rotate_user_row, hk1, hk2]
  · rw [hid2, hid1]
  · rw [hap2, hap1]
  · rw [henc2]
    exact hrel1
  · rw [← hpl1]
    exact hrel2

theorem rotate_bot_row_ok (ko kn : String) (b : EmailBot) (hkn : kn ≠ ko)
    (hr : botRowReadable ko b) :
    ∃ b', rotate_bot_row ko kn b = .ok b' ∧ rotatedBot ko kn b b' := by
  obtain ⟨⟨pe, hpe⟩, ⟨pp, hpp⟩⟩ := hr
  refine ⟨(b._set_email pe kn)._set_password pp kn, ?_, rfl, ?_, ?_, ?_, ?_⟩
  · simp [rotate_bot_row, hpe, EmailBot._set_email, hpp]
  · rw [hpe]
    simp [EmailBot._set_email, EmailBot._set_password, encrypt_value, decrypt_value]
  · simp [EmailBot._set_email, EmailBot._set_password, encrypt_value, decrypt_value, hkn]
  · rw [hpp]
    simp [EmailBot._set_email, EmailBot._set_password, encrypt_value, decrypt_value]
  · simp [EmailBot._set_email, EmailBot._set_password, encrypt_value, decrypt_value, hkn]

theorem rotateUsersRows_ok (ko kn : String) (l : List User) (hkn : kn ≠ ko)
    (h : ∀ u ∈ l, userRowReadable ko u) :
    ∃ l', rotateUsersRows ko kn l = .ok l' ∧ List.Forall₂ (rotatedUser ko kn) l l' := by
  induction l with
  | nil => exact ⟨[], rfl, List.Forall₂.nil⟩
  | cons a t ih =>
    obtain ⟨a', ha, hrel⟩ := rotate_user_row_ok ko kn a hkn (h a (List.mem_cons_self a t))
    obtain ⟨t', ht, hrels⟩ := ih (fun u hu => h u (List.mem_cons_of_mem a hu))
    exact ⟨a' :: t', by simp [rotateUsersRows, ha, ht], List.Forall₂.cons hrel hrels⟩

theorem rotateBotsRows_ok (ko kn : String) (l : List EmailBot) (hkn : kn ≠ ko)
    (h : ∀ b ∈ l, botRowReadable ko b) :
    ∃ l', rotateBotsRows ko kn l = .ok l' ∧ List.Forall₂ (rotatedBot ko kn) l l' := by
  induction l with
  | nil => exact ⟨[], rfl, List.Forall₂.nil⟩
  | cons a t ih =>
    obtain ⟨a', ha, hrel⟩ := rotate_bot_row_ok ko kn a hkn (h a (List.mem_cons_self a t))
    obtain ⟨t', ht, hrels⟩ := ih (fun b hb => h b (List.mem_cons_of_mem a hb))
    exact ⟨a' :: t', by simp [rotateBotsRows, ha, ht], List.Forall₂.cons hrel hrels⟩

theorem pyReplace_empty (pat repl : String) : pyReplace "" pat repl = "" := rfl

/-- Store with one approved user whose stored key ciphertext decrypts to
the plaintext secret-api-key-123. -/
def c1Store : Store :=
  ⟨[⟨"u1", "Alice", "alice@x.com", some ⟨"fk", "secret-api-key-123"⟩, none, false, true, 0, false⟩],
   [], "fk", "sk", 5⟩

/-- C1: the admin list-users handler builds each row from the decrypting
`api_key` and `api_key_plain` properties, so its response contains the
plaintext of `api_key_encrypted` for every approved user - here the stored
secret secret-api-key-123 appears verbatim in the listing, although the
handler docstring documents the field as the encrypted key and the spec says
the plaintext is delivered exactly once at approval. -/
theorem claim_C1_admin_listing_returns_plaintext :
    list_users_admin c1Store =
      .ok [⟨"u1", "Alice", "alice@x.com", true, false, some "secret-api-key-123", none⟩] := by
  rfl

/-- C2: during master-key rotation, if any single row (user key field, user
pending field, bot email or password field) fails to decrypt under the
active key, the whole migration aborts: the run returns the error before any
commit, so the persistent store - every ciphertext and the active-key
configuration - is exactly what it was. -/
theorem claim_C2_rotation_aborts_atomically (st : Store) (newKey : String)
    (hfail : (∃ u ∈ st.users, userRowFails st.fernetKey u) ∨
      (∃ b ∈ st.bots, botRowFails st.fernetKey b)) :
    rotate_fernet_key st newKey = .error () ∧ run_rotation st newKey = st := by
  have herr : rotate_fernet_key st newKey = .error () := by
    unfold rotate_fernet_key
    split
    · rfl
    · rcases hfail with hu | hb
      · simp [rotateUsersRows_fails st.fernetKey newKey st.users hu]
      · cases hru : rotateUsersRows st.fernetKey newKey st.users with
        | error e => cases e; rfl
        | ok users' => simp [rotateBotsRows_fails st.fernetKey newKey st.bots hb]
  refine ⟨herr, ?_⟩
  unfold run_rotation
  rw [herr]

/-- Store whose single user holds a key ciphertext written under a key other
than the active one, so its decryption fails during rotation. -/
def w2Store : Store :=
  ⟨[⟨"u1", "A", "a@x.com", some ⟨"other", "tok"⟩, none, false, true, 0, false⟩],
   [], "kold", "sk", 5⟩

theorem claim_C2_witness :
    rotate_fernet_key w2Store "knew" = .error () ∧ run_rotation w2Store "knew" = w2Store :=
  claim_C2_rotation_aborts_atomically w2Store "knew"
    (Or.inl ⟨⟨"u1", "A", "a@x.com", some ⟨"other", "tok"⟩, none, false, true, 0, false⟩,
      by decide, Or.inl ⟨⟨"other", "tok"⟩, rfl, by decide⟩⟩)

/-- Store refuting C3 as stated: its single ciphertext decrypts under the
active key `kold` (to the empty string), yet rotation silently drops it. -/
def cex3Store : Store :=
  ⟨[⟨"u1", "A", "a@x.com", some ⟨"kold", ""⟩, none, false, true, 0, false⟩],
   [], "kold", "sk", 5⟩

/-- C3 counterexample: a store whose every ciphertext decrypts under K_old
on which the claim fails.  The stored secret decrypts under `kold` to the
empty string; the rotation run succeeds, but because the `_set_api_key`
helper treats a falsy value as a clear, the rewritten row has an empty key
field - the previously stored secret does not decrypt to its old plaintext
under the new key (it is gone entirely). -/
theorem claim_C3_counterexample :
    decrypt_value ⟨"kold", ""⟩ cex3Store.fernetKey = some "" ∧
    rotate_fernet_key cex3Store "knew" =
      .ok ⟨[⟨"u1", "A", "a@x.com", none, none, false, true, 0, false⟩], [], "knew", "sk", 5⟩ := by
  constructor
  · decide
  · rfl

/-- C3 (amended: every ciphertext must decrypt under K_old to a nonempty
plaintext - the empty-plaintext case is the counterexample, and is a state
the system itself never writes): after a successful rotation to a fresh
`newKey`, the active-key configuration is `newKey`, and row by row every
previously stored secret decrypts under `newKey` to exactly its old
plaintext and no longer decrypts under the old key; the configuration is
updated only in the success case, in which all rows are rewritten. -/
theorem claim_C3_rotation_correct_amended (st : Store) (newKey : String)
    (hnew : newKey ≠ st.fernetKey) (hold : st.fernetKey ≠ "")
    (husers : ∀ u ∈ st.users, userRowReadable st.fernetKey u)
    (hbots : ∀ b ∈ st.bots, botRowReadable st.fernetKey b) :
    ∃ st', rotate_fernet_key st newKey = .ok st' ∧ st'.fernetKey = newKey ∧
      List.Forall₂ (rotatedUser st.fernetKey newKey) st.users st'.users ∧
      List.Forall₂ (rotatedBot st.fernetKey newKey) st.bots st'.bots := by
  obtain ⟨users', hu, hrelu⟩ := rotateUsersRows_ok st.fernetKey newKey st.users hnew husers
  obtain ⟨bots', hb, hrelb⟩ := rotateBotsRows_ok st.fernetKey newKey st.bots hnew hbots
  refine ⟨{ st with users := users', bots := bots', fernetKey := newKey }, ?_, rfl, hrelu, hrelb⟩
  simp [rotate_fernet_key, hold, hu, hb]

/-- Store for the C3 witness: one approved user with both key fields
present and one bot, everything written under the active key `kold`. -/
def w3Store : Store :=
  ⟨[⟨"u1", "A", "a@x.com", some ⟨"kold", "tok"⟩, some ⟨"kold", "pend"⟩, false, true, 0, false⟩],
   [⟨"b1", "u1", none, ⟨"kold", "bot@x.com"⟩, ⟨"kold", "pw"⟩, "smtp.gmail.com", 587⟩],
   "kold", "sk", 5⟩

theorem claim_C3_witness :
    ∃ st', rotate_fernet_key w3Store "knew" = .ok st' ∧ st'.fernetKey = "knew" ∧
      List.Forall₂ (rotatedUser w3Store.fernetKey "knew") w3Store.users st'.users ∧
      List.Forall₂ (rotatedBot w3Store.fernetKey "knew") w3Store.bots st'.bots :=
  claim_C3_rotation_correct_amended w3Store "knew" (by decide) (by decide)
    (by
      intro u hu
      have hu' : u = ⟨"u1", "A", "a@x.com", some ⟨"kold", "tok"⟩, some ⟨"kold", "pend"⟩,
          false, true, 0, false⟩ := by
        simpa [w3Store] using hu
      subst hu'
      constructor
      · intro c hc
        cases hc
        exact ⟨"tok", by decide, by decide⟩
      · intro c hc
        cases hc
        exact ⟨"pend", by decide, by decide⟩)
    (by
      intro b hb
      have hb' : b = ⟨"b1", "u1", none, ⟨"kold", "bot@x.com"⟩, ⟨"kold", "pw"⟩,
          "smtp.gmail.com", 587⟩ := by
        simpa [w3Store] using hb
      subst hb'
      exact ⟨⟨"bot@x.com", by decide⟩, ⟨"pw", by decide⟩⟩)

/-- C4: in every store reachable by any sequence of the system's operations
(registration, approval, user key rotation, master-key rotation,
block/unblock), an approved user has a non-empty permanent encrypted key and
an empty pending field. -/
theorem claim_C4_approved_key_invariant (st : Store) (hreach : Reachable st) :
    ∀ u ∈ st.users, u.api_key_approved = true →
      u.api_key_encrypted ≠ none ∧ u.api_key_plain_encrypted = none := by
  intro u hu happ
  obtain ⟨⟨c, hc, _, _⟩, hplain⟩ := reachable_inv hreach u hu happ
  refine ⟨?_, hplain⟩
  rw [hc]
  simp

/-- The empty initial store of the C4 witness run. -/
def w4Store0 : Store := ⟨[], [], "fk", "sk", 5⟩

/-- The C4 witness store after one registration. -/
def w4Store1 : Store := (register (some "Alice") (some "a@x.com") "key123" "u1" w4Store0).store

/-- The C4 witness store after the registration is approved. -/
def w4Store : Store := (approve_user "u1" w4Store1).store

theorem claim_C4_witness :
    (⟨"u1", "Alice", "a@x.com", some ⟨"fk", "key123"⟩, none, false, true, 0, false⟩ :
        User).api_key_encrypted ≠ none ∧
    (⟨"u1", "Alice", "a@x.com", some ⟨"fk", "key123"⟩, none, false, true, 0, false⟩ :
        User).api_key_plain_encrypted = none :=
  claim_C4_approved_key_invariant w4Store
    ((Reachable.init "fk" "sk" 5).step
        (Step.reg (some "Alice") (some "a@x.com") "key123" "u1" w4Store0) |>.step
      (Step.approve "u1" w4Store1))
    ⟨"u1", "Alice", "a@x.com", some ⟨"fk", "key123"⟩, none, false, true, 0, false⟩
    (by decide) (by decide)

/-- C5: a request carrying the configured (nonempty) static trusted-service
key passes the admin gate outright - whatever the user table holds - while
the approved-user gate, given only the static key and no bearer credential,
rejects the request with 401 instead of running the wrapped operation. -/
theorem claim_C5_static_key_tiers {α : Type} (st : Store) (req : RequestHeaders)
    (f : Unit → α)
    (hstat : req.xStaticKey = some st.staticKey) (hne : st.staticKey ≠ "")
    (hauth : req.authorization = none) :
    admin_only f req st = .executed (f ()) ∧
    require_api_key f req st = .rejected 401 "API key missing" := by
  have hok : staticKeyOk req st = true := by
    simp [staticKeyOk, hstat, hne]
  constructor
  · simp [admin_only, hok]
  · simp [require_api_key, hauth, pyReplace_empty]

/-- Store for the C5 witness: empty user table, static key statkey. -/
def w5Store : Store := ⟨[], [], "fk", "statkey", 5⟩

theorem claim_C5_witness :
    admin_only (fun _ => (0 : Nat)) ⟨none, some "statkey"⟩ w5Store = .executed 0 ∧
    require_api_key (fun _ => (0 : Nat)) ⟨none, some "statkey"⟩ w5Store =
      .rejected 401 "API key missing" :=
  claim_C5_static_key_tiers w5Store ⟨none, some "statkey"⟩ (fun _ => 0) rfl (by decide) rfl

/-- C6: with no matching static key and a bearer header carrying the
nonempty token `t`, identity resolution returns exactly the approved user
whose stored key decrypts to `t` whenever that user is unique - other
approved users with different keys, and candidates whose ciphertexts fail to
decrypt (the failure is swallowed and the scan continues), do not disturb
the result - and returns no identity when no approved candidate matches. -/
theorem claim_C6_identity_resolution (st : Store) (req : RequestHeaders) (t : String)
    (u : User)
    (hstat : staticKeyOk req st = false)
    (hsw : pyStartswith (req.authorization.getD "") "Bearer " = true)
    (hrep : pyReplace (req.authorization.getD "") "Bearer " "" = t)
    (ht : t ≠ "") :
    ((u ∈ st.users ∧ u.api_key_approved = true ∧ userKeyMatches st.fernetKey t u = true ∧
        (∀ v ∈ st.users, v.api_key_approved = true →
          userKeyMatches st.fernetKey t v = true → v = u)) →
      get_current_user req st = some u) ∧
    ((∀ v ∈ st.users, v.api_key_approved = true → userKeyMatches st.fernetKey t v = false) →
      get_current_user req st = none) := by
  constructor
  · rintro ⟨hmem, happ, hmatch, huniq⟩
    unfold get_current_user
    simp only [hstat, Bool.false_eq_true, if_false, hsw, if_true, hrep, ht, if_neg ht]
    refine find?_eq_some_of_unique _ _ u (List.mem_filter.mpr ⟨hmem, happ⟩) hmatch ?_
    intro v hv hpv
    have hvf := List.mem_filter.mp hv
    exact huniq v hvf.1 hvf.2 hpv
  · intro hnone
    unfold get_current_user
    simp only [hstat, Bool.false_eq_true, if_false, hsw, if_true, hrep, ht, if_neg ht]
    rw [List.find?_eq_none]
    intro v hv
    have hvf := List.mem_filter.mp hv
    simp [hnone v hvf.1 hvf.2]

/-- Store for the C6 witness: an approved candidate whose ciphertext does
not decrypt under the active key, an approved user with a different key, and
the approved holder of tok123, scanned in that order. -/
def w6Store : Store :=
  ⟨[⟨"u0", "B", "b@x.com", some ⟨"other", "zz"⟩, none, false, true, 0, false⟩,
    ⟨"u2", "C", "c@x.com", some ⟨"fk", "zzz"⟩, none, false, true, 0, false⟩,
    ⟨"u3", "D", "d@x.com", some ⟨"fk", "tok123"⟩, none, false, true, 0, false⟩],
   [], "fk", "sk", 5⟩

theorem claim_C6_witness :
    get_current_user ⟨some "Bearer tok123", none⟩ w6Store =
      some ⟨"u3", "D", "d@x.com", some ⟨"fk", "tok123"⟩, none, false, true, 0, false⟩ :=
  (claim_C6_identity_resolution w6Store ⟨some "Bearer tok123", none⟩ "tok123"
      ⟨"u3", "D", "d@x.com", some ⟨"fk", "tok123"⟩, none, false, true, 0, false⟩
      (by decide) (by decide) (by decide) (by decide)).1
    (by decide)

/-- C7: at an approved-user-gated operation, a request with no credential at
all is rejected 401 missing key; a request whose extracted nonempty token
matches no user at all is rejected 403 invalid key; a request whose token
matches exactly one user, who is unapproved, is rejected 403 awaiting
approval - and in each case the result is a rejection, never an execution of
the wrapped operation. -/
theorem claim_C7_user_gate_rejections {α : Type} (st : Store) (f : Unit → α)
    (req1 req2 req3 : RequestHeaders) (t2 t3 : String) (u : User)
    (h1 : req1.authorization = none)
    (h2 : pyReplace (req2.authorization.getD "") "Bearer " "" = t2) (h2ne : t2 ≠ "")
    (h2no : ∀ v ∈ st.users, userKeyMatches st.fernetKey t2 v = false)
    (h3 : pyReplace (req3.authorization.getD "") "Bearer " "" = t3) (h3ne : t3 ≠ "")
    (h3mem : u ∈ st.users) (h3match : userKeyMatches st.fernetKey t3 u = true)
    (h3pend : u.api_key_approved = false)
    (h3uniq : ∀ v ∈ st.users, userKeyMatches st.fernetKey t3 v = true → v = u) :
    require_api_key f req1 st = .rejected 401 "API key missing" ∧
    require_api_key f req2 st = .rejected 403 "Invalid API key" ∧
    require_api_key f req3 st = .rejected 403 pendingApprovalMsg := by
  refine ⟨?_, ?_, ?_⟩
  · simp [require_api_key, h1, pyReplace_empty]
  · unfold require_api_key
    simp only [h2, if_neg h2ne]
    rw [List.find?_eq_none.mpr]
    intro v hv
    simp [h2no v hv]
  · unfold require_api_key
    simp only [h3, if_neg h3ne]
    rw [find?_eq_some_of_unique _ _ u h3mem h3match h3uniq]
    simp [h3pend]

/-- Store for the C7 witness: one unapproved user holding the decryptable
key tok3; the token nope matches nobody. -/
def w7Store : Store :=
  ⟨[⟨"u1", "P", "p@x.com", some ⟨"fk", "tok3"⟩, none, false, false, 0, false⟩],
   [], "fk", "sk", 5⟩

theorem claim_C7_witness :
    require_api_key (fun _ => (0 : Nat)) ⟨none, none⟩ w7Store =
      .rejected 401 "API key missing" ∧
    require_api_key (fun _ => (0 : Nat)) ⟨some "Bearer nope", none⟩ w7Store =
      .rejected 403 "Invalid API key" ∧
    require_api_key (fun _ => (0 : Nat)) ⟨some "Bearer tok3", none⟩ w7Store =
      .rejected 403 pendingApprovalMsg :=
  claim_C7_user_gate_rejections w7Store (fun _ => 0) ⟨none, none⟩
    ⟨some "Bearer nope", none⟩ ⟨some "Bearer tok3", none⟩ "nope" "tok3"
    ⟨"u1", "P", "p@x.com", some ⟨"fk", "tok3"⟩, none, false, false, 0, false⟩
    rfl (by decide) (by decide) (by decide) (by decide) (by decide) (by decide) (by decide)
    rfl (by decide)

/-- C8: approving an already-approved user returns the already-approved
message as a non-error result, commits no change to any user record - in
particular the stored encrypted key and the empty pending field are exactly
as before - and produces no approval notification. -/
theorem claim_C8_approve_idempotent (st : Store) (uid : String) (u : User)
    (hfind : st.users.find? (fun v => v.id == uid) = some u)
    (happ : u.api_key_approved = true) :
    approve_user uid st = ⟨.alreadyApproved, st, []⟩ := by
  unfold approve_user
  simp [hfind, happ]

/-- Store for the C8 witness: one approved user. -/
def w8Store : Store :=
  ⟨[⟨"u1", "G", "g@x.com", some ⟨"fk", "tok8"⟩, none, false, true, 0, false⟩],
   [], "fk", "sk", 5⟩

theorem claim_C8_witness :
    approve_user "u1" w8Store = ⟨.alreadyApproved, w8Store, []⟩ :=
  claim_C8_approve_idempotent w8Store "u1"
    ⟨"u1", "G", "g@x.com", some ⟨"fk", "tok8"⟩, none, false, true, 0, false⟩
    (by decide) rfl

/-- C9: when the acting user's default-bot usage counter has reached the
configured limit, a send-email request without a bot id is rejected 403 with
the limit-exceeded error, no hand-off to the SMTP transport happens, and the
committed store - including the usage counter - is unchanged. -/
theorem claim_C9_send_email_limit (st : Store) (req : RequestHeaders) (user : User)
    (sendOk : Bool)
    (hu : get_current_user req st = some user)
    (hlim : st.botLimit ≤ user.hermes_default_usage) :
    send_email_route none sendOk req st = ⟨403, some limitExceededMsg, false, st⟩ := by
  unfold send_email_route
  simp only [hu, truthyStr_none, Bool.false_eq_true, if_false, if_pos hlim]

/-- Store for the C9 witness: an approved user at the usage limit 5 of 5. -/
def w9Store : Store :=
  ⟨[⟨"u1", "E", "e@x.com", some ⟨"fk", "tok9"⟩, none, false, true, 5, false⟩],
   [], "fk", "sk", 5⟩

theorem claim_C9_witness :
    send_email_route none true ⟨some "Bearer tok9", none⟩ w9Store =
      ⟨403, some limitExceededMsg, false, w9Store⟩ :=
  claim_C9_send_email_limit w9Store ⟨some "Bearer tok9", none⟩
    ⟨"u1", "E", "e@x.com", some ⟨"fk", "tok9"⟩, none, false, true, 5, false⟩ true
    (by decide) (by decide)

/-- C10 (implicit): when a request carries both a matching static service
key and a bearer token that identifies a unique approved user, the static
check in identity resolution short-circuits to no user, so the
approved-user-gated profile and send-email endpoints - whose gate passes on
the bearer token and whose handlers then re-resolve the acting user - execute
their handlers into the 400 User-not-found response instead of acting as the
bearer user. -/
theorem claim_C10_static_key_shadows_bearer (st : Store) (req : RequestHeaders)
    (t : String) (u : User) (sendOk : Bool)
    (hstat : staticKeyOk req st = true)
    (hrep : pyReplace (req.authorization.getD "") "Bearer " "" = t) (ht : t ≠ "")
    (hmem : u ∈ st.users) (happ : u.api_key_approved = true)
    (hmatch : userKeyMatches st.fernetKey t u = true)
    (huniq : ∀ v ∈ st.users, userKeyMatches st.fernetKey t v = true → v = u) :
    get_current_user req st = none ∧
    me_endpoint req st = .executed (400, some "User not found") ∧
    send_email_endpoint none sendOk req st = .executed ⟨400, some "User not found", false, st⟩ := by
  have hgcu : get_current_user req st = none := by
    unfold get_current_user
    simp [hstat]
  refine ⟨hgcu, ?_, ?_⟩
  · unfold me_endpoint require_api_key
    simp only [hrep, if_neg ht]
    rw [find?_eq_some_of_unique _ _ u hmem hmatch huniq]
    simp [happ, get_profile_route, hgcu]
  · unfold send_email_endpoint require_api_key
    simp only [hrep, if_neg ht]
    rw [find?_eq_some_of_unique _ _ u hmem hmatch huniq]
    simp [happ, send_email_route, hgcu]

/-- Store for the C10 witness: an approved holder of tokX and the static key
statkey. -/
def wXStore : Store :=
  ⟨[⟨"u1", "F", "f@x.com", some ⟨"fk", "tokX"⟩, none, false, true, 0, false⟩],
   [], "fk", "statkey", 5⟩

theorem claim_C10_witness :
    get_current_user ⟨some "Bearer tokX", some "statkey"⟩ wXStore = none ∧
    me_endpoint ⟨some "Bearer tokX", some "statkey"⟩ wXStore =
      .executed (400, some "User not found") ∧
    send_email_endpoint none true ⟨some "Bearer tokX", some "statkey"⟩ wXStore =
      .executed ⟨400, some "User not found", false, wXStore⟩ :=
  claim_C10_static_key_shadows_bearer wXStore ⟨some "Bearer tokX", some "statkey"⟩ "tokX"
    ⟨"u1", "F", "f@x.com", some ⟨"fk", "tokX"⟩, none, false, true, 0, false⟩ true
    (by decide) (by decide) (by decide) (by decide) (by decide) (by decide) (by decide)

end Hermes
